import Mathlib

/-!
Verification of the batch-transaction engine of the `linea-20` repository.

The development shallowly embeds the JavaScript source:

* `getNextNonce` / `nonceCalls` — the per-address nonce allocator of
  `src/lib/interact.js` (the `nonceTracker` map entry for one address,
  sequential semantics).
* `retryGo` / `retryLoop` — the `while (attempt < retries && !success)`
  retry loop shared by every submitter.
* `rawGo` / `rawBatch` — the raw/ETH batch orchestrator
  (`batchSendRawTransactions`), which records an exhausted item in the
  `failed` list and continues.
* `tokenGo` / `tokenRun` — the token-transfer orchestrator
  (`executeBatchTransactions`), which plans amounts, checks the balance,
  and aborts the whole run on retry exhaustion.
* `randomDecimalScaled` / `randomDecimalValue` — the amount planner
  (`randomDecimalString`), modelled over ℚ with the random draw made an
  explicit parameter `u` and `toFixed` modelled as round-half-up to `p`
  decimal places.
* `tokenGasLimit` — the per-item gas-limit clamp of the token submitter.

Network effects are abstracted by an environment oracle
`ev : Nat → Nat → NetEvent` giving, for planned item number `t` and attempt
number `a`, what the network did on that attempt.
-/

namespace Linea

/-- What the network does on one submission attempt: the send (sign/broadcast)
throws, or the broadcast succeeds but waiting for the receipt throws, or a
receipt with a block number and status is observed. -/
inductive NetEvent where
  | sendError : NetEvent
  | waitError : NetEvent
  | receipt : Nat → Nat → NetEvent
deriving DecidableEq, Repr

/-- How one iteration of a retry loop ends, as recorded by the loop:
`success` with the attempt number that succeeded, `exhausted` after the
final failing attempt (the `attempt >= retries` branch of the `catch`), or
`noAttempt` when the loop guard `attempt < retries` fails before any
iteration (only possible when `retries = 0`). -/
inductive LoopResult (α : Type) where
  | success : α → Nat → LoopResult α
  | exhausted : Nat → LoopResult α
  | noAttempt : LoopResult α
deriving DecidableEq, Repr

/-- Number of attempts actually made by a finished retry loop. -/
def LoopResult.attemptsMade {α : Type} : LoopResult α → Nat
  | .success _ a => a
  | .exhausted a => a
  | .noAttempt => 0

/-- The body of `while (attempt < retries && !success)` from the source:
`a` is the current value of `attempt`, `fuel = retries - a` counts the
remaining permitted iterations, and `try1 (a+1)` is the outcome of the
`try` block on attempt `a+1` (`some x` on success, `none` when it throws).
When the attempt fails and the incremented attempt counter has reached the
budget (`fuel` would drop to 0), the `catch` records exhaustion and breaks;
otherwise it backs off and iterates. -/
def retryGo {α : Type} (try1 : Nat → Option α) : Nat → Nat → LoopResult α
  | _, 0 => .noAttempt
  | a, 1 =>
    match try1 (a + 1) with
    | some x => .success x (a + 1)
    | none => .exhausted (a + 1)
  | a, fuel + 2 =>
    match try1 (a + 1) with
    | some x => .success x (a + 1)
    | none => retryGo try1 (a + 1) (fuel + 1)

/-- The whole retry loop: `attempt` starts at 0 with budget `retries`. -/
def retryLoop {α : Type} (try1 : Nat → Option α) (retries : Nat) : LoopResult α :=
  retryGo try1 0 retries

/-- Model of `getNextNonce` from `src/lib/interact.js`, for a single address, with the
network read abstracted to `base` (the pending transaction count) and the
map entry `nonceTracker.get(key).nonce` modelled as `Option Nat`
(`none` = absent). On a miss the code stores `{ nonce }` and returns `nonce`
without incrementing; on a hit it returns `tracker.nonce` and increments. -/
def getNextNonce (base : Nat) : Option Nat → Nat × Option Nat
  | none => (base, some base)
  | some n => (n, some (n + 1))

/-- The list of nonces returned by `n` sequential `getNextNonce` calls for the
same address, starting from tracker state `st`. -/
def nonceCalls (base : Nat) : Nat → Option Nat → List Nat
  | 0, _ => []
  | n + 1, st =>
    let r := getNextNonce base st
    r.1 :: nonceCalls base n r.2

/-- Nonces returned by `n` sequential allocations starting with no tracker
entry (the first call performs the network read and sees `base`). -/
def nonceSeq (base n : Nat) : List Nat :=
  nonceCalls base n none

/-- The per-item gas limit computed by the token-transfer submitter
(`executeBatchTransactions`, and identically `main` of the original script):
on a successful per-item estimate `e` it takes
`min (max (e + 2000) 80000) 250000`; when estimation throws it clamps the
run-level fallback estimate the same way. -/
def tokenGasLimit (estimatedGasPerTx : Nat) (estimate : Option Nat) : Nat :=
  match estimate with
  | some e => min (max (e + 2000) 80000) 250000
  | none => min (max (estimatedGasPerTx + 2000) 80000) 250000

/-- Model of `randomDecimalString` from the source, scaled: the draw
`r = u * (max - min) + min` (with `u` the value of `Math.random()`),
multiplied by `10^p` and rounded half-up, which is how `toFixed(p)` renders
a nonnegative number. The string printed by the source is this integer with
a decimal point inserted `p` digits from the right. -/
def randomDecimalScaled (minV maxV u : ℚ) (p : Nat) : ℤ :=
  ⌊(u * (maxV - minV) + minV) * 10 ^ p + 1 / 2⌋

/-- The numeric value denoted by the string `randomDecimalString` returns. -/
def randomDecimalValue (minV maxV u : ℚ) (p : Nat) : ℚ :=
  (randomDecimalScaled minV maxV u p : ℚ) / 10 ^ p

/-- The fractional digits printed by `toFixed p` for the scaled value `n`:
digit `j` (most significant first) of the `p`-digit zero-padded rendering of
`n % 10^p`. -/
def fracDigitsStr (p : Nat) (n : Nat) : List Nat :=
  (List.range p).map (fun j => n / 10 ^ (p - 1 - j) % 10)

/-- One entry of the `results` list built by `batchSendRawTransactions`:
planned item number (`txNumber`), block number and status from the awaited
receipt.  Static payload fields (to, data, hash, gasUsed) are carried by the
environment and do not affect the control flow modelled here. -/
structure RawResult where
  index : Nat
  blockNumber : Nat
  status : Nat
deriving DecidableEq, Repr

/-- The mutable state of one `batchSendRawTransactions` run: the `results`
and `failed` lists (failures identified by their `index` field), plus the
item numbers after which the inter-transaction delay sleep ran. -/
structure RawState where
  results : List RawResult
  failed : List Nat
  delaySleeps : List Nat
deriving DecidableEq, Repr

def RawState.empty : RawState := ⟨[], [], []⟩

/-- What the `try` block of the raw/ETH submitter makes of one network
event: `sent.wait()` is awaited with no `.catch`, so both a send error and a
receipt-wait error throw into the `catch` (attempt failure); only an
observed receipt yields success. -/
def rawAttempt (ev : NetEvent) : Option (Nat × Nat) :=
  match ev with
  | .sendError => none
  | .waitError => none
  | .receipt b s => some (b, s)

/-- The item loop of `batchSendRawTransactions`: `t` is the next planned
item number (`txNumber`), `remaining` the number of items still to process,
`total` the run's planned total.  Each item runs the retry loop; success
appends to `results` and, when `delay > 0 && txNumber < totalTransactions`,
performs the inter-item delay sleep; exhaustion appends to `failed` and the
loop continues with the next item. -/
def rawGo (retries total : Nat) (delayPos : Bool) (ev : Nat → Nat → NetEvent) :
    Nat → Nat → RawState → RawState
  | _, 0, st => st
  | t, remaining + 1, st =>
    let st' :=
      match retryLoop (fun a => rawAttempt (ev t a)) retries with
      | .success (b, s) _ =>
        { st with
          results := st.results ++ [⟨t, b, s⟩]
          delaySleeps := st.delaySleeps ++ (if delayPos ∧ t < total then [t] else []) }
      | .exhausted _ => { st with failed := st.failed ++ [t] }
      | .noAttempt => st
    rawGo retries total delayPos ev (t + 1) remaining st'

/-- A whole `batchSendRawTransactions` run over `numTxs` distinct
transactions each repeated `count` times (`totalTransactions =
transactions.length * count`), item numbers 1..total in submission order. -/
def rawBatch (numTxs count retries : Nat) (delayPos : Bool)
    (ev : Nat → Nat → NetEvent) : RawState :=
  rawGo retries (numTxs * count) delayPos ev 1 (numTxs * count) RawState.empty

/-- The summary record returned by `batchSendRawTransactions`. -/
structure RawSummary where
  total : Nat
  successful : Nat
  failed : Nat
deriving DecidableEq, Repr

/-- The final summary of a raw batch run: `total` is the planned count,
`successful` the length of `results`, `failed` the length of the failed
list. -/
def rawSummary (numTxs count retries : Nat) (delayPos : Bool)
    (ev : Nat → Nat → NetEvent) : RawSummary :=
  let st := rawBatch numTxs count retries delayPos ev
  ⟨numTxs * count, st.results.length, st.failed.length⟩

/-- One entry of the `txLog` built by `executeBatchTransactions`: item
index, and the block number / status of the receipt — both absent when
`sent.wait(1)` failed or timed out (the `.catch(() => null)` path). -/
structure TokenEntry where
  index : Nat
  blockNumber : Option Nat
  status : Option Nat
deriving DecidableEq, Repr

/-- Mutable state of one `executeBatchTransactions` run: the transaction
log, the item indices after which the configured delay sleep ran, and the
item indices on which at least one submission attempt was made. -/
structure TokenState where
  txLog : List TokenEntry
  delaySleeps : List Nat
  attempted : List Nat
deriving DecidableEq, Repr

def TokenState.empty : TokenState := ⟨[], [], []⟩

/-- Terminal failures of `executeBatchTransactions`: the pre-submission
balance check (`"Planned total exceeds token balance"`), or the
run-aborting `"Max retries reached for tx #i"` thrown from the item loop. -/
inductive TokenError where
  | planningError : TokenError
  | maxRetries : Nat → TokenError
deriving DecidableEq, Repr

/-- What the `try` block of the token-transfer submitter makes of one
network event: a send error throws into the `catch`; a receipt-wait failure
is swallowed by `.catch(() => null)` and yields a log entry with absent
block number and status; a receipt yields both fields. -/
def tokenAttempt (ev : NetEvent) : Option (Option Nat × Option Nat) :=
  match ev with
  | .sendError => none
  | .waitError => some (none, none)
  | .receipt b s => some (some b, some s)

/-- The item loop of `executeBatchTransactions` over the planned base-unit
amounts: a zero-unit item is skipped (`continue`) with no attempt and no log
entry; otherwise the retry loop runs — success appends a log entry and, when
`delay > 0`, sleeps (with no last-item exception); exhaustion throws,
aborting the run with the remaining items unprocessed. -/
def tokenGo (retries : Nat) (delayPos : Bool) (ev : Nat → Nat → NetEvent) :
    List Nat → Nat → TokenState → TokenState × Option TokenError
  | [], _, st => (st, none)
  | u :: rest, i, st =>
    if u = 0 then tokenGo retries delayPos ev rest (i + 1) st
    else
      match retryLoop (fun a => tokenAttempt (ev i a)) retries with
      | .success (b, s) _ =>
        tokenGo retries delayPos ev rest (i + 1)
          { st with
            txLog := st.txLog ++ [⟨i, b, s⟩]
            delaySleeps := st.delaySleeps ++ (if delayPos then [i] else [])
            attempted := st.attempted ++ [i] }
      | .exhausted _ => ({ st with attempted := st.attempted ++ [i] }, some (.maxRetries i))
      | .noAttempt => tokenGo retries delayPos ev rest (i + 1) st

/-- A whole `executeBatchTransactions` run: `planned` are the planned
base-unit amounts, `balance` the sender's token balance in base units.
If the planned total exceeds the balance the run aborts with a planning
error before any submission; otherwise the item loop runs over items
1..planned.length.  The second component is `none` when the run completes
(`success: true`) and `some e` when it throws. -/
def tokenRun (planned : List Nat) (balance retries : Nat) (delayPos : Bool)
    (ev : Nat → Nat → NetEvent) : TokenState × Option TokenError :=
  if balance < planned.sum then (TokenState.empty, some .planningError)
  else tokenGo retries delayPos ev planned 1 TokenState.empty

/-! ### Helper lemmas about the retry loop -/

/-- A retry loop that is allowed at least one iteration always records an
outcome for its item. -/
theorem retryGo_ne_noAttempt {α : Type} (try1 : Nat → Option α) :
    ∀ f a, retryGo try1 a (f + 1) ≠ LoopResult.noAttempt := by
  intro f
  induction f with
  | zero =>
    intro a h
    cases htry : try1 (a + 1) <;> simp [retryGo, htry] at h
  | succ f ih =>
    intro a h
    cases htry : try1 (a + 1) with
    | none => simp [retryGo, htry] at h; exact ih (a + 1) h
    | some x => simp [retryGo, htry] at h

/-- With a positive budget, a retry loop ends in success or exhaustion. -/
theorem retryLoop_cases {α : Type} (try1 : Nat → Option α) (R : Nat) (hR : 1 ≤ R) :
    (∃ x a, retryLoop try1 R = .success x a) ∨ ∃ a, retryLoop try1 R = .exhausted a := by
  match hres : retryLoop try1 R with
  | .success x a => exact Or.inl ⟨x, a, rfl⟩
  | .exhausted a => exact Or.inr ⟨a, rfl⟩
  | .noAttempt =>
    obtain ⟨f, rfl⟩ : ∃ f, R = f + 1 := ⟨R - 1, by omega⟩
    exact absurd hres (retryGo_ne_noAttempt try1 f 0)

/-- When every attempt fails, the loop runs through its whole budget. -/
theorem retryGo_allFail {α : Type} (try1 : Nat → Option α) (h : ∀ i, try1 i = none) :
    ∀ f a, retryGo try1 a (f + 1) = .exhausted (a + f + 1) := by
  intro f
  induction f with
  | zero => intro a; simp [retryGo, h]
  | succ f ih =>
    intro a
    rw [show f + 1 + 1 = f + 2 from rfl, retryGo, h, ih (a + 1)]
    simp
    omega

/-- When every attempt fails and the budget is `R ≥ 1`, the loop makes
exactly `R` attempts and ends exhausted. -/
theorem retryLoop_allFail {α : Type} (try1 : Nat → Option α) (h : ∀ i, try1 i = none)
    (R : Nat) (hR : 1 ≤ R) : retryLoop try1 R = .exhausted R := by
  obtain ⟨f, rfl⟩ : ∃ f, R = f + 1 := ⟨R - 1, by omega⟩
  rw [retryLoop, retryGo_allFail try1 h f 0]
  simp

/-- When the first attempt succeeds, the loop ends at attempt 1. -/
theorem retryLoop_firstSuccess {α : Type} (try1 : Nat → Option α) {x : α}
    (h : try1 1 = some x) (R : Nat) (hR : 1 ≤ R) : retryLoop try1 R = .success x 1 := by
  obtain ⟨f, rfl⟩ : ∃ f, R = f + 1 := ⟨R - 1, by omega⟩
  cases f with
  | zero => simp [retryLoop, retryGo, h]
  | succ f => simp [retryLoop, retryGo, h]

/-! ### Helper lemmas about the raw/ETH batch loop -/

/-- Unfolding one item of the raw batch loop. -/
theorem rawGo_succ (retries total : Nat) (d : Bool) (ev : Nat → Nat → NetEvent)
    (t r : Nat) (st : RawState) :
    rawGo retries total d ev t (r + 1) st =
      rawGo retries total d ev (t + 1) r
        (match retryLoop (fun a => rawAttempt (ev t a)) retries with
         | .success (b, s) _ =>
           { st with
             results := st.results ++ [⟨t, b, s⟩]
             delaySleeps := st.delaySleeps ++ (if d ∧ t < total then [t] else []) }
         | .exhausted _ => { st with failed := st.failed ++ [t] }
         | .noAttempt => st) := rfl

/-- Each planned item of a raw batch with a positive retry budget adds
exactly one record, to `results` or to `failed`. -/
theorem rawGo_length (retries total : Nat) (d : Bool) (ev : Nat → Nat → NetEvent)
    (hR : 1 ≤ retries) :
    ∀ (r t : Nat) (st : RawState),
      (rawGo retries total d ev t r st).results.length
          + (rawGo retries total d ev t r st).failed.length
        = st.results.length + st.failed.length + r := by
  intro r
  induction r with
  | zero => intro t st; simp [rawGo]
  | succ r ih =>
    intro t st
    rw [rawGo_succ]
    rcases retryLoop_cases (fun a => rawAttempt (ev t a)) retries hR with
      ⟨⟨b, s⟩, a, hres⟩ | ⟨a, hres⟩
    · rw [hres, ih]; simp <;> omega
    · rw [hres, ih]; simp <;> omega

/-- Each planned item number `t0` of a raw batch with a positive retry
budget ends up counted exactly once across `results` and `failed`. -/
theorem rawGo_count (retries total : Nat) (d : Bool) (ev : Nat → Nat → NetEvent)
    (t0 : Nat) (hR : 1 ≤ retries) :
    ∀ (r t : Nat) (st : RawState),
      ((rawGo retries total d ev t r st).results.countP (fun x => x.index = t0))
          + ((rawGo retries total d ev t r st).failed.count t0)
        = (st.results.countP (fun x => x.index = t0)) + (st.failed.count t0)
          + (if t ≤ t0 ∧ t0 < t + r then 1 else 0) := by
  intro r
  induction r with
  | zero => intro t st; simp [rawGo]
  | succ r ih =>
    intro t st
    rw [rawGo_succ]
    rcases retryLoop_cases (fun a => rawAttempt (ev t a)) retries hR with
      ⟨⟨b, s⟩, a, hres⟩ | ⟨a, hres⟩
    · rw [hres, ih]
      simp [List.countP_append, List.countP_cons, List.count_append, List.count_cons]
      by_cases ht : t = t0 <;> simp [ht] <;> (try split_ifs) <;> omega
    · rw [hres, ih]
      simp [List.countP_append, List.countP_cons, List.count_append, List.count_cons]
      by_cases ht : t = t0 <;> simp [ht] <;> (try split_ifs) <;> omega

/-- Closed form of the raw batch loop when every item's first attempt
succeeds with payload `P`: every item lands in `results`, nothing fails, and
the delay sleep runs after every item whose number is below the total. -/
theorem rawGo_allOk (retries total : Nat) (ev : Nat → Nat → NetEvent)
    (P : Nat → Nat × Nat) (hev : ∀ t, rawAttempt (ev t 1) = some (P t))
    (hR : 1 ≤ retries) :
    ∀ (r t : Nat) (st : RawState),
      rawGo retries total true ev t r st =
        { results := st.results
            ++ (List.range' t r).map (fun j => ⟨j, (P j).1, (P j).2⟩)
          failed := st.failed
          delaySleeps := st.delaySleeps
            ++ (List.range' t r).filter (fun j => j < total) } := by
  intro r
  induction r with
  | zero => intro t st; simp [rawGo]
  | succ r ih =>
    intro t st
    rw [rawGo_succ, retryLoop_firstSuccess _ (hev t) retries hR, ih]
    by_cases ht : t < total <;>
      simp [List.range'_succ, List.filter_cons, ht]

/-- Closed form of the raw batch loop when every attempt of every item
fails: every item lands in `failed`, nothing succeeds, no delay sleep. -/
theorem rawGo_allFail (retries total : Nat) (d : Bool) (ev : Nat → Nat → NetEvent)
    (hev : ∀ t a, rawAttempt (ev t a) = none) (hR : 1 ≤ retries) :
    ∀ (r t : Nat) (st : RawState),
      rawGo retries total d ev t r st =
        { results := st.results
          failed := st.failed ++ List.range' t r
          delaySleeps := st.delaySleeps } := by
  intro r
  induction r with
  | zero => intro t st; simp [rawGo]
  | succ r ih =>
    intro t st
    rw [rawGo_succ, retryLoop_allFail _ (hev t) retries hR, ih]
    simp [List.range'_succ]

/-- Closed form of the raw batch loop, without delay, when item `k` fails
every attempt and every other item succeeds at the first attempt: `k` alone
lands in `failed` and every other item lands in `results`, in order. -/
theorem rawGo_failOnly (retries total k : Nat) (ev : Nat → Nat → NetEvent)
    (P : Nat → Nat × Nat)
    (hok : ∀ t, t ≠ k → rawAttempt (ev t 1) = some (P t))
    (hfail : ∀ a, rawAttempt (ev k a) = none) (hR : 1 ≤ retries) :
    ∀ (r t : Nat) (st : RawState),
      rawGo retries total false ev t r st =
        { results := st.results
            ++ ((List.range' t r).filter (fun j => j ≠ k)).map
                  (fun j => ⟨j, (P j).1, (P j).2⟩)
          failed := st.failed ++ (List.range' t r).filter (fun j => j = k)
          delaySleeps := st.delaySleeps } := by
  intro r
  induction r with
  | zero => intro t st; simp [rawGo]
  | succ r ih =>
    intro t st
    by_cases ht : t = k
    · subst ht
      rw [rawGo_succ, retryLoop_allFail _ hfail retries hR, ih]
      simp [List.range'_succ, List.filter_cons]
    · rw [rawGo_succ, retryLoop_firstSuccess _ (hok t ht) retries hR, ih]
      simp [List.range'_succ, List.filter_cons, ht]

/-- Filtering a 1-based range for equality with `k` keeps at most the single
element `k`. -/
theorem range'_filter_eq_singleton (k : Nat) :
    ∀ (r s : Nat), (List.range' s r).filter (fun j => j = k)
      = if s ≤ k ∧ k < s + r then [k] else [] := by
  intro r
  induction r with
  | zero => intro s; simp <;> omega
  | succ r ih =>
    intro s
    rw [List.range'_succ, List.filter_cons, ih (s + 1)]
    by_cases hs : s = k
    · subst hs
      have h1 : ¬ (s + 1 ≤ s ∧ s < s + 1 + r) := by omega
      have h2 : s ≤ s ∧ s < s + (r + 1) := by omega
      simp [h1, h2]
    · have h3 : (s ≤ k ∧ k < s + (r + 1)) ↔ (s + 1 ≤ k ∧ k < s + 1 + r) := by
        omega
      simp [hs, h3]

/-- Filtering the item numbers `1..m` by being below `m` drops exactly the
last item. -/
theorem range'_filter_lt (m : Nat) :
    (List.range' 1 m).filter (fun j => j < m) = List.range' 1 (m - 1) := by
  cases m with
  | zero => simp
  | succ m =>
    rw [List.range'_1_concat, List.filter_append]
    have h1 : (List.range' 1 m).filter (fun j => j < m + 1) = List.range' 1 m := by
      apply List.filter_eq_self.mpr
      intro a ha
      have := List.mem_range'_1.mp ha
      simp
      omega
    have h2 : ¬ (1 + m < m + 1) := by omega
    simp [h1, h2]

/-! ### Helper lemmas about the token-transfer batch loop -/

/-- Unfolding one item of the token batch loop. -/
theorem tokenGo_cons (retries : Nat) (d : Bool) (ev : Nat → Nat → NetEvent)
    (u : Nat) (rest : List Nat) (i : Nat) (st : TokenState) :
    tokenGo retries d ev (u :: rest) i st =
      if u = 0 then tokenGo retries d ev rest (i + 1) st
      else
        match retryLoop (fun a => tokenAttempt (ev i a)) retries with
        | .success (b, s) _ =>
          tokenGo retries d ev rest (i + 1)
            { st with
              txLog := st.txLog ++ [⟨i, b, s⟩]
              delaySleeps := st.delaySleeps ++ (if d then [i] else [])
              attempted := st.attempted ++ [i] }
        | .exhausted _ =>
          ({ st with attempted := st.attempted ++ [i] }, some (.maxRetries i))
        | .noAttempt => tokenGo retries d ev rest (i + 1) st := rfl

/-- Closed form of the token batch loop when every item's first attempt
yields payload `pay` and every planned amount is nonzero: every item gets
one log entry in order, the delay sleep runs after every item (when the
delay is positive), and the run completes. -/
theorem tokenGo_allOk (retries : Nat) (d : Bool) (ev : Nat → Nat → NetEvent)
    (pay : Nat → Option Nat × Option Nat)
    (hev : ∀ j, tokenAttempt (ev j 1) = some (pay j)) (hR : 1 ≤ retries) :
    ∀ (l : List Nat) (i : Nat) (st : TokenState), (∀ u ∈ l, u ≠ 0) →
      tokenGo retries d ev l i st =
        ({ txLog := st.txLog
             ++ (List.range' i l.length).map (fun j => ⟨j, (pay j).1, (pay j).2⟩)
           delaySleeps := st.delaySleeps
             ++ (if d then List.range' i l.length else [])
           attempted := st.attempted ++ List.range' i l.length }, none) := by
  intro l
  induction l with
  | nil => intro i st _; simp [tokenGo]
  | cons u rest ih =>
    intro i st hnz
    rw [tokenGo_cons, if_neg (hnz u (by simp)),
      retryLoop_firstSuccess _ (hev i) retries hR]
    show tokenGo retries d ev rest (i + 1) _ = _
    rw [ih (i + 1) _ (fun v hv => hnz v (by simp [hv]))]
    cases d <;> simp [List.range'_succ]

/-- Closed form of the token batch loop, without delay, when item `k` fails
every attempt and the items before it succeed at the first attempt: the
items before `k` get log entries, `k` is attempted, and the run aborts with
the max-retries error naming `k`; no later item is attempted. -/
theorem tokenGo_failAt (retries k : Nat) (ev : Nat → Nat → NetEvent)
    (pay : Nat → Option Nat × Option Nat)
    (hok : ∀ j, j ≠ k → tokenAttempt (ev j 1) = some (pay j))
    (hfail : ∀ a, tokenAttempt (ev k a) = none) (hR : 1 ≤ retries) :
    ∀ (l : List Nat) (i : Nat) (st : TokenState), (∀ u ∈ l, u ≠ 0) →
      i ≤ k → k < i + l.length →
      tokenGo retries false ev l i st =
        ({ txLog := st.txLog
             ++ (List.range' i (k - i)).map (fun j => ⟨j, (pay j).1, (pay j).2⟩)
           delaySleeps := st.delaySleeps
           attempted := st.attempted ++ List.range' i (k - i + 1) },
         some (.maxRetries k)) := by
  intro l
  induction l with
  | nil => intro i st _ h1 h2; simp at h2; omega
  | cons u rest ih =>
    intro i st hnz hik hkl
    rw [tokenGo_cons, if_neg (hnz u (by simp))]
    by_cases hik' : i = k
    · subst hik'
      rw [retryLoop_allFail _ hfail retries hR]
      simp
    · have hlt : i < k := lt_of_le_of_ne hik hik'
      rw [retryLoop_firstSuccess _ (hok i hik') retries hR]
      show tokenGo retries false ev rest (i + 1) _ = _
      rw [ih (i + 1) _ (fun v hv => hnz v (by simp [hv])) (by omega)
          (by simp at hkl ⊢; omega)]
      have e1 : k - i = (k - (i + 1)) + 1 := by omega
      rw [e1, List.range'_succ, List.range'_succ]
      simp
      rw [List.range'_succ, List.range'_succ]

/-- Entries appended by the token loop starting at item `i` all have index
at least `i`: counts of earlier indices are unchanged. -/
theorem tokenGo_count_lt (retries : Nat) (d : Bool) (ev : Nat → Nat → NetEvent)
    (t0 : Nat) :
    ∀ (l : List Nat) (i : Nat) (st : TokenState), t0 < i →
      (tokenGo retries d ev l i st).1.txLog.countP (fun e => e.index = t0)
        = st.txLog.countP (fun e => e.index = t0) := by
  intro l
  induction l with
  | nil => intro i st _; simp [tokenGo]
  | cons u rest ih =>
    intro i st ht0
    rw [tokenGo_cons]
    by_cases hu : u = 0
    · rw [if_pos hu, ih (i + 1) st (by omega)]
    · rw [if_neg hu]
      match hres : retryLoop (fun a => tokenAttempt (ev i a)) retries with
      | .success (b, s) a =>
        rw [ih (i + 1) _ (by omega)]
        simp [List.countP_append, List.countP_cons]
        omega
      | .exhausted a => simp
      | .noAttempt => rw [ih (i + 1) st (by omega)]

/-- In a completing token run with positive retry budget and nonzero
amounts, every planned item index in range gets exactly one log entry. -/
theorem tokenGo_count_complete (retries : Nat) (d : Bool) (ev : Nat → Nat → NetEvent)
    (hR : 1 ≤ retries) :
    ∀ (l : List Nat) (i : Nat) (st : TokenState) (t0 : Nat), (∀ u ∈ l, u ≠ 0) →
      (tokenGo retries d ev l i st).2 = none →
      i ≤ t0 → t0 < i + l.length →
      (tokenGo retries d ev l i st).1.txLog.countP (fun e => e.index = t0)
        = st.txLog.countP (fun e => e.index = t0) + 1 := by
  intro l
  induction l with
  | nil => intro i st t0 _ _ h1 h2; simp at h2; omega
  | cons u rest ih =>
    intro i st t0 hnz hdone h1 h2
    rw [tokenGo_cons, if_neg (hnz u (by simp))] at hdone ⊢
    rcases retryLoop_cases (fun a => tokenAttempt (ev i a)) retries hR with
      ⟨⟨b, s⟩, a, hres⟩ | ⟨a, hres⟩
    · rw [hres] at hdone ⊢
      by_cases ht0 : t0 = i
      · subst ht0
        rw [tokenGo_count_lt retries d ev t0 rest (t0 + 1) _ (by omega)]
        simp [List.countP_append, List.countP_cons]
      · rw [ih (i + 1) _ t0 (fun v hv => hnz v (by simp [hv])) hdone (by omega)
          (by simp at h2 ⊢; omega)]
        simp [List.countP_append, List.countP_cons, Ne.symm ht0]
    · rw [hres] at hdone
      simp at hdone

/-! ### Claims -/

/-- C1: the claim says the first nonce-allocator call for an address returns
the network pending count and every subsequent call returns the prior value
plus one, so N allocations yield base..base+N-1 with no duplicates or gaps.
The code stores the base without incrementing on the miss path, so the first
two calls both return the base: with pending count 7, three sequential calls
return 7, 7, 8 (not 7, 8, 9), and the returned list has a duplicate. -/
theorem getNextNonce_first_two_calls_collide :
    nonceSeq 7 3 = [7, 7, 8] ∧ nonceSeq 7 3 ≠ [7, 8, 9] ∧
    ¬ (nonceSeq 7 3).Nodup := by decide

/-- C2 counterexample: a raw batch run with retry budget 0 returns a summary
with total 1 but successful 0 and failed 0, so successful + failed ≠ total. -/
theorem summary_invariant_counterexample :
    (rawSummary 1 1 0 false (fun _ _ => .receipt 0 1)).successful
        + (rawSummary 1 1 0 false (fun _ _ => .receipt 0 1)).failed
      ≠ (rawSummary 1 1 0 false (fun _ _ => .receipt 0 1)).total := by decide

/-- C2 (amended): for every raw/ETH batch run whose retry budget is at least
1, the returned summary satisfies successful + failed = total, where total
is the number of planned submissions, successful the length of the results
list and failed the length of the failed-transactions list. -/
theorem summary_invariant (numTxs count retries : Nat) (d : Bool)
    (ev : Nat → Nat → NetEvent) (hR : 1 ≤ retries) :
    (rawSummary numTxs count retries d ev).successful
        + (rawSummary numTxs count retries d ev).failed
      = (rawSummary numTxs count retries d ev).total := by
  have h := rawGo_length retries (numTxs * count) d ev hR (numTxs * count) 1
    RawState.empty
  simpa [rawSummary, rawBatch, RawState.empty] using h

/-- C2 witness: a concrete all-failing 2-by-2 batch with budget 1. -/
theorem summary_invariant_witness :
    (rawSummary 2 2 1 true (fun _ _ => .sendError)).successful
        + (rawSummary 2 2 1 true (fun _ _ => .sendError)).failed
      = (rawSummary 2 2 1 true (fun _ _ => .sendError)).total :=
  summary_invariant 2 2 1 true (fun _ _ => .sendError) (by decide)

/-- C3 counterexample: with retry budget 0, planned item 1 of a raw batch
ends in neither the results list nor the failed list (count 0, not 1). -/
theorem item_outcome_counterexample :
    ((rawBatch 1 1 0 false (fun _ _ => .receipt 0 1)).results.countP
        (fun x => x.index = 1))
      + ((rawBatch 1 1 0 false (fun _ _ => .receipt 0 1)).failed.count 1)
      = 0 := by decide

/-- C3 (amended): with a retry budget of at least 1, every planned item of a
raw/ETH batch ends in exactly one of the results list or the failed list;
and every nonzero planned item of a token-transfer run that completes gets
exactly one transaction-log entry.  (With budget 0 an item ends in neither;
in token mode, zero-amount items are skipped and a run-aborting failure
leaves the aborting item named by the error and later items unprocessed.) -/
theorem item_outcome_exactly_one
    (numTxs count retries : Nat) (d : Bool) (ev : Nat → Nat → NetEvent)
    (t0 : Nat) (planned : List Nat) (balance : Nat) (dtok : Bool)
    (evtok : Nat → Nat → NetEvent) (i0 : Nat)
    (hR : 1 ≤ retries)
    (ht1 : 1 ≤ t0) (ht2 : t0 ≤ numTxs * count)
    (hnz : ∀ u ∈ planned, u ≠ 0)
    (hdone : (tokenRun planned balance retries dtok evtok).2 = none)
    (hi1 : 1 ≤ i0) (hi2 : i0 ≤ planned.length) :
    ((rawBatch numTxs count retries d ev).results.countP
        (fun x => x.index = t0))
      + ((rawBatch numTxs count retries d ev).failed.count t0) = 1 ∧
    (tokenRun planned balance retries dtok evtok).1.txLog.countP
        (fun e => e.index = i0) = 1 := by
  constructor
  · have h := rawGo_count retries (numTxs * count) d ev t0 hR (numTxs * count) 1
      RawState.empty
    have hcond : 1 ≤ t0 ∧ t0 < 1 + numTxs * count := ⟨ht1, by omega⟩
    simpa [rawBatch, RawState.empty, hcond] using h
  · by_cases hb : balance < planned.sum
    · exfalso
      rw [tokenRun, if_pos hb] at hdone
      simp at hdone
    · rw [tokenRun, if_neg hb] at hdone ⊢
      have h := tokenGo_count_complete retries dtok evtok hR planned 1
        TokenState.empty i0 hnz hdone hi1 (by omega)
      simpa [TokenState.empty] using h

/-- C3 witness: a one-item batch and a one-item token run, budget 1. -/
theorem item_outcome_exactly_one_witness :
    ((rawBatch 1 1 1 false (fun _ _ => .receipt 0 1)).results.countP
        (fun x => x.index = 1))
      + ((rawBatch 1 1 1 false (fun _ _ => .receipt 0 1)).failed.count 1) = 1 ∧
    (tokenRun [1] 1 1 false (fun _ _ => .receipt 0 1)).1.txLog.countP
        (fun e => e.index = 1) = 1 :=
  item_outcome_exactly_one 1 1 1 false (fun _ _ => .receipt 0 1) 1 [1] 1 false
    (fun _ _ => .receipt 0 1) 1 (by decide) (by decide) (by decide)
    (by decide) (by decide) (by decide) (by decide)

/-- C8: a token-transfer run whose planned base-unit total exceeds the token
balance aborts with the planning error before any submission: the run fails,
the transaction log is empty and no item was ever attempted. -/
theorem planning_abort_before_submission
    (planned : List Nat) (balance retries : Nat) (d : Bool)
    (ev : Nat → Nat → NetEvent) (hb : balance < planned.sum) :
    (tokenRun planned balance retries d ev).2 = some .planningError ∧
    (tokenRun planned balance retries d ev).1.txLog = [] ∧
    (tokenRun planned balance retries d ev).1.attempted = [] := by
  rw [tokenRun, if_pos hb]
  exact ⟨rfl, rfl, rfl⟩

/-- C8 witness: planned total 5 against balance 4. -/
theorem planning_abort_witness :
    (tokenRun [2, 3] 4 3 true (fun _ _ => .receipt 0 1)).2
        = some .planningError ∧
    (tokenRun [2, 3] 4 3 true (fun _ _ => .receipt 0 1)).1.txLog = [] ∧
    (tokenRun [2, 3] 4 3 true (fun _ _ => .receipt 0 1)).1.attempted = [] :=
  planning_abort_before_submission [2, 3] 4 3 true (fun _ _ => .receipt 0 1)
    (by decide)

/-- C10: every gas limit placed in a token-transfer transaction request lies
between 80000 and 250000 inclusive, whether the per-item estimate succeeded
or the fallback estimate was clamped. -/
theorem gas_limit_clamped (estimatedGasPerTx : Nat) (estimate : Option Nat) :
    80000 ≤ tokenGasLimit estimatedGasPerTx estimate ∧
    tokenGasLimit estimatedGasPerTx estimate ≤ 250000 := by
  cases estimate with
  | none => exact ⟨le_min (le_max_right _ _) (by norm_num), min_le_right _ _⟩
  | some e => exact ⟨le_min (le_max_right _ _) (by norm_num), min_le_right _ _⟩

/-- C4 counterexample: with min = max = 0.00002 and precision 4 the planner
rounds the draw to 0.0000, which is strictly below min and not equal to the
bound, refuting both the range claim and the min = max edge case. -/
theorem planner_range_counterexample :
    ((1 : ℚ) / 50000 ≤ (1 : ℚ) / 50000) ∧
    randomDecimalValue (1 / 50000) (1 / 50000) 0 4 < 1 / 50000 ∧
    randomDecimalValue (1 / 50000) (1 / 50000) 0 4 ≠ 1 / 50000 := by
  norm_num [randomDecimalValue, randomDecimalScaled]

/-- C4 (amended): the planner's value is the half-up rounding to p decimal
places of a draw r with min ≤ r ≤ max, so it lies within half an ulp of the
interval (min − 1/(2·10^p) ≤ v ≤ max + 1/(2·10^p)); the rendering always has
exactly p fractional digits; and when min = max every produced value equals
the bound rounded half-up to p places, independently of the draw (hence the
bound itself exactly when the bound needs at most p fractional digits). -/
theorem planner_value_bounds (minV maxV u : ℚ) (p : Nat)
    (hmm : minV ≤ maxV) (hu0 : 0 ≤ u) (hu1 : u < 1) :
    minV - 1 / (2 * 10 ^ p) ≤ randomDecimalValue minV maxV u p ∧
    randomDecimalValue minV maxV u p ≤ maxV + 1 / (2 * 10 ^ p) ∧
    (fracDigitsStr p (randomDecimalScaled minV maxV u p).toNat).length = p ∧
    randomDecimalValue minV minV u p
      = ((⌊minV * 10 ^ p + 1 / 2⌋ : ℤ) : ℚ) / 10 ^ p := by
  have hp : (0 : ℚ) < 10 ^ p := by positivity
  have hr1 : minV ≤ u * (maxV - minV) + minV := by
    have h := mul_nonneg hu0 (by linarith : (0 : ℚ) ≤ maxV - minV)
    linarith
  have hr2 : u * (maxV - minV) + minV ≤ maxV := by
    have h : u * (maxV - minV) ≤ 1 * (maxV - minV) :=
      mul_le_mul_of_nonneg_right (le_of_lt hu1) (by linarith)
    linarith
  have hfl_le : ((randomDecimalScaled minV maxV u p : ℤ) : ℚ)
      ≤ (u * (maxV - minV) + minV) * 10 ^ p + 1 / 2 := Int.floor_le _
  have hfl_gt : (u * (maxV - minV) + minV) * 10 ^ p + 1 / 2 - 1
      < ((randomDecimalScaled minV maxV u p : ℤ) : ℚ) := Int.sub_one_lt_floor _
  refine ⟨?_, ?_, ?_, ?_⟩
  · rw [randomDecimalValue, le_div_iff hp]
    have e : (minV - 1 / (2 * 10 ^ p)) * 10 ^ p = minV * 10 ^ p - 1 / 2 := by
      field_simp
      ring
    rw [e]
    nlinarith [mul_le_mul_of_nonneg_right hr1 (le_of_lt hp)]
  · rw [randomDecimalValue, div_le_iff hp]
    have e : (maxV + 1 / (2 * 10 ^ p)) * 10 ^ p = maxV * 10 ^ p + 1 / 2 := by
      field_simp
      ring
    rw [e]
    nlinarith [mul_le_mul_of_nonneg_right hr2 (le_of_lt hp)]
  · simp [fracDigitsStr]
  · rw [randomDecimalValue, randomDecimalScaled]
    have e : (u * (minV - minV) + minV) * 10 ^ p + 1 / 2
        = minV * 10 ^ p + 1 / 2 := by ring
    rw [e]

/-- C4 witness: min 1/4, max 1/2, draw 0, precision 2. -/
theorem planner_value_bounds_witness :
    (1 : ℚ) / 4 - 1 / (2 * 10 ^ 2) ≤ randomDecimalValue (1 / 4) (1 / 2) 0 2 ∧
    randomDecimalValue (1 / 4) (1 / 2) 0 2 ≤ 1 / 2 + 1 / (2 * 10 ^ 2) ∧
    (fracDigitsStr 2 (randomDecimalScaled (1 / 4) (1 / 2) 0 2).toNat).length = 2 ∧
    randomDecimalValue (1 / 4) (1 / 4) 0 2
      = ((⌊(1 : ℚ) / 4 * 10 ^ 2 + 1 / 2⌋ : ℤ) : ℚ) / 10 ^ 2 :=
  planner_value_bounds (1 / 4) (1 / 2) 0 2 (by norm_num) (by norm_num)
    (by norm_num)

/-- C5: the batch failure policy is mode-asymmetric.  When item k exhausts
its retries while every other item succeeds, the single-stream token run
aborts with the max-retries error naming k: only items 1..k are attempted
and the run ends failed.  The raw/ETH batch records k in the failed list,
continues with every remaining item, and completes with summary counts
total n, successful n − 1, failed 1. -/
theorem mode_asymmetric_failure_policy
    (planned : List Nat) (balance k retries : Nat) (ev : Nat → Nat → NetEvent)
    (B S : Nat → Nat)
    (hnz : ∀ u ∈ planned, u ≠ 0) (hbal : planned.sum ≤ balance)
    (hR : 1 ≤ retries) (hk1 : 1 ≤ k) (hkn : k ≤ planned.length)
    (hfail : ∀ a, ev k a = .sendError)
    (hok : ∀ t, t ≠ k → ev t 1 = .receipt (B t) (S t)) :
    (tokenRun planned balance retries false ev).2 = some (.maxRetries k) ∧
    (tokenRun planned balance retries false ev).1.attempted
        = List.range' 1 k ∧
    (rawBatch planned.length 1 retries false ev).failed = [k] ∧
    (rawBatch planned.length 1 retries false ev).results.map
        (fun x => x.index)
      = (List.range' 1 planned.length).filter (fun j => j ≠ k) ∧
    rawSummary planned.length 1 retries false ev
      = ⟨planned.length, planned.length - 1, 1⟩ := by
  have htokfail : ∀ a, tokenAttempt (ev k a) = none := by
    intro a; rw [hfail a]; rfl
  have htokok : ∀ j, j ≠ k →
      tokenAttempt (ev j 1) = some (some (B j), some (S j)) := by
    intro j hj; rw [hok j hj]; rfl
  have hrawfail : ∀ a, rawAttempt (ev k a) = none := by
    intro a; rw [hfail a]; rfl
  have hrawok : ∀ j, j ≠ k → rawAttempt (ev j 1) = some (B j, S j) := by
    intro j hj; rw [hok j hj]; rfl
  have htok := tokenGo_failAt retries k ev (fun j => (some (B j), some (S j)))
    htokok htokfail hR planned 1 TokenState.empty hnz (by omega) (by omega)
  have hraw := rawGo_failOnly retries (planned.length * 1) k ev
    (fun j => (B j, S j)) hrawok hrawfail hR (planned.length * 1) 1
    RawState.empty
  have htr : tokenRun planned balance retries false ev
      = tokenGo retries false ev planned 1 TokenState.empty := by
    rw [tokenRun, if_neg (by omega)]
  have hrb : rawBatch planned.length 1 retries false ev
      = rawGo retries (planned.length * 1) false ev 1 (planned.length * 1)
          RawState.empty := rfl
  have ekk : k - 1 + 1 = k := by omega
  have hfailed : (rawBatch planned.length 1 retries false ev).failed = [k] := by
    rw [hrb, hraw, range'_filter_eq_singleton,
      if_pos ⟨hk1, by omega⟩]
    simp [RawState.empty]
  refine ⟨?_, ?_, hfailed, ?_, ?_⟩
  · rw [htr, htok]
  · rw [htr, htok]
    simp [TokenState.empty, ekk]
  · rw [hrb, hraw]
    simp [RawState.empty, List.map_map]
    have hcomp : ((fun x : RawResult => x.index)
        ∘ fun j => ({ index := j, blockNumber := B j, status := S j } : RawResult))
        = fun j => j := rfl
    rw [hcomp]
    exact List.map_id _
  · have hlen := rawGo_length retries (planned.length * 1) false ev hR
      (planned.length * 1) 1 RawState.empty
    rw [← hrb] at hlen
    rw [hfailed] at hlen
    simp [RawState.empty] at hlen
    have hsum : rawSummary planned.length 1 retries false ev
        = ⟨planned.length * 1,
            (rawBatch planned.length 1 retries false ev).results.length,
            (rawBatch planned.length 1 retries false ev).failed.length⟩ := rfl
    rw [hsum, hfailed]
    simp
    omega

/-- C5 witness: three items with item 2 permanently failing, budget 1. -/
theorem mode_asymmetric_failure_policy_witness :
    (tokenRun [1, 1, 2] 4 1 false
        (fun t _ => if t = 2 then .sendError else .receipt 0 1)).2
      = some (.maxRetries 2) ∧
    (tokenRun [1, 1, 2] 4 1 false
        (fun t _ => if t = 2 then .sendError else .receipt 0 1)).1.attempted
      = List.range' 1 2 ∧
    (rawBatch 3 1 1 false
        (fun t _ => if t = 2 then .sendError else .receipt 0 1)).failed
      = [2] ∧
    (rawBatch 3 1 1 false
        (fun t _ => if t = 2 then .sendError else .receipt 0 1)).results.map
        (fun x => x.index)
      = (List.range' 1 3).filter (fun j => j ≠ 2) ∧
    rawSummary 3 1 1 false
        (fun t _ => if t = 2 then .sendError else .receipt 0 1)
      = ⟨3, 2, 1⟩ :=
  mode_asymmetric_failure_policy [1, 1, 2] 4 2 1
    (fun t _ => if t = 2 then .sendError else .receipt 0 1)
    (fun _ => 0) (fun _ => 1)
    (by decide) (by decide) (by decide) (by decide) (by decide)
    (fun a => by simp)
    (fun t ht => by simp [ht])

/-- C6 counterexample: in the raw/ETH submitter a failed receipt wait after
a successful broadcast is treated as a failed attempt, not a success: with
budget 1 the item lands in the failed list and no result is recorded. -/
theorem confirmation_wait_counterexample :
    (rawBatch 1 1 1 false (fun _ _ => .waitError)).failed = [1] ∧
    (rawBatch 1 1 1 false (fun _ _ => .waitError)).results = [] := by decide

/-- C6 (amended): only the token-transfer submitter tolerates a failed
receipt wait after a successful broadcast: each item is recorded as
successful with block number and status absent and its retry loop ends, and
the run completes.  The raw/ETH submitter treats the same event as a failed
attempt: with every wait failing, no result is recorded and every item ends
in the failed list after its retries are exhausted. -/
theorem confirmation_timeout_tolerated
    (planned : List Nat) (balance retries numTxs count : Nat)
    (hnz : ∀ u ∈ planned, u ≠ 0) (hbal : planned.sum ≤ balance)
    (hR : 1 ≤ retries) :
    (tokenRun planned balance retries false (fun _ _ => .waitError)).1.txLog
        = (List.range' 1 planned.length).map (fun j => ⟨j, none, none⟩) ∧
    (tokenRun planned balance retries false (fun _ _ => .waitError)).2
        = none ∧
    (rawBatch numTxs count retries false (fun _ _ => .waitError)).results
        = [] ∧
    (rawBatch numTxs count retries false (fun _ _ => .waitError)).failed
        = List.range' 1 (numTxs * count) := by
  have htok := tokenGo_allOk retries false (fun _ _ => .waitError)
    (fun _ => (none, none)) (fun j => rfl) hR planned 1 TokenState.empty hnz
  have hraw := rawGo_allFail retries (numTxs * count) false
    (fun _ _ => .waitError) (fun t a => rfl) hR (numTxs * count) 1
    RawState.empty
  have htr : tokenRun planned balance retries false (fun _ _ => .waitError)
      = tokenGo retries false (fun _ _ => .waitError) planned 1
          TokenState.empty := by
    rw [tokenRun, if_neg (by omega)]
  have hrb : rawBatch numTxs count retries false (fun _ _ => .waitError)
      = rawGo retries (numTxs * count) false (fun _ _ => .waitError) 1
          (numTxs * count) RawState.empty := rfl
  refine ⟨?_, ?_, ?_, ?_⟩
  · rw [htr, htok]; simp [TokenState.empty]
  · rw [htr, htok]
  · rw [hrb, hraw]; simp [RawState.empty]
  · rw [hrb, hraw]; simp [RawState.empty]

/-- C6 witness: two token items and a 2-by-1 raw batch, budget 2. -/
theorem confirmation_timeout_tolerated_witness :
    (tokenRun [1, 1] 2 2 false (fun _ _ => .waitError)).1.txLog
        = (List.range' 1 2).map (fun j => ⟨j, none, none⟩) ∧
    (tokenRun [1, 1] 2 2 false (fun _ _ => .waitError)).2 = none ∧
    (rawBatch 2 1 2 false (fun _ _ => .waitError)).results = [] ∧
    (rawBatch 2 1 2 false (fun _ _ => .waitError)).failed
        = List.range' 1 (2 * 1) :=
  confirmation_timeout_tolerated [1, 1] 2 2 2 1 (by decide) (by decide)
    (by decide)

/-- C7: with retry budget R ≥ 1 and every attempt of every item failing, the
submitter makes exactly R attempts per item — the retry loop ends exhausted
at attempt R — after which the raw/ETH batch marks each item failed and
continues, while the token-transfer run aborts at its first item. -/
theorem retry_budget_exact (R numTxs count m t : Nat) (ev : Nat → Nat → NetEvent)
    (hR : 1 ≤ R) (hfail : ∀ t' a, ev t' a = .sendError) (hm : 1 ≤ m) :
    retryLoop (fun a => rawAttempt (ev t a)) R = .exhausted R ∧
    (retryLoop (fun a => rawAttempt (ev t a)) R).attemptsMade = R ∧
    (rawBatch numTxs count R false ev).failed
        = List.range' 1 (numTxs * count) ∧
    (rawBatch numTxs count R false ev).results = [] ∧
    (tokenRun (List.replicate m 1) m R false ev).2
        = some (.maxRetries 1) := by
  have hrawfail : ∀ t' a, rawAttempt (ev t' a) = none := by
    intro t' a; rw [hfail t' a]; rfl
  have hloop : retryLoop (fun a => rawAttempt (ev t a)) R
      = .exhausted R := retryLoop_allFail _ (hrawfail t) R hR
  have hraw := rawGo_allFail R (numTxs * count) false ev hrawfail hR
    (numTxs * count) 1 RawState.empty
  have hrb : rawBatch numTxs count R false ev
      = rawGo R (numTxs * count) false ev 1 (numTxs * count)
          RawState.empty := rfl
  refine ⟨hloop, ?_, ?_, ?_, ?_⟩
  · rw [hloop]
    rfl
  · rw [hrb, hraw]; simp [RawState.empty]
  · rw [hrb, hraw]; simp [RawState.empty]
  · obtain ⟨m', rfl⟩ : ∃ m', m = m' + 1 := ⟨m - 1, by omega⟩
    have hsum : (List.replicate (m' + 1) 1).sum = m' + 1 := by
      simp [List.sum_replicate]
    rw [tokenRun, if_neg (by omega)]
    rw [List.replicate_succ, tokenGo_cons, if_neg one_ne_zero,
      retryLoop_allFail _ (fun a => by rw [hfail 1 a]; rfl) R hR]

/-- C7 witness: budget 2, a 1-by-2 raw batch and a 1-item token run. -/
theorem retry_budget_exact_witness :
    retryLoop
        (fun a => rawAttempt ((fun (_ _ : Nat) => NetEvent.sendError) 1 a)) 2
        = .exhausted 2 ∧
    (retryLoop
        (fun a => rawAttempt ((fun (_ _ : Nat) => NetEvent.sendError) 1 a))
        2).attemptsMade = 2 ∧
    (rawBatch 1 2 2 false (fun _ _ => NetEvent.sendError)).failed
        = List.range' 1 (1 * 2) ∧
    (rawBatch 1 2 2 false (fun _ _ => NetEvent.sendError)).results = [] ∧
    (tokenRun (List.replicate 1 1) 1 2 false (fun _ _ => NetEvent.sendError)).2
        = some (.maxRetries 1) :=
  retry_budget_exact 2 1 2 1 1 (fun _ _ => NetEvent.sendError) (by decide)
    (fun _ _ => rfl) (by decide)

/-- C9 counterexample: a token-transfer run with one item and a positive
delay sleeps after that item, which is the last item of the run. -/
theorem delay_after_last_counterexample :
    (tokenRun [5] 10 1 true (fun _ _ => .receipt 2 1)).1.delaySleeps = [1] ∧
    (tokenRun [5] 10 1 true (fun _ _ => .receipt 2 1)).1.txLog.length
        = 1 := by decide

/-- C9 (amended): with a positive configured delay and all items succeeding,
the raw/ETH orchestrator sleeps after every item except the last
(delay sleeps exactly after items 1..total−1), while the token-transfer
orchestrator sleeps after every successful item including the last
(delay sleeps exactly after items 1..n). -/
theorem delay_between_items
    (numTxs count retries : Nat) (planned : List Nat) (balance : Nat)
    (ev : Nat → Nat → NetEvent) (B S : Nat → Nat)
    (hev : ∀ t, ev t 1 = .receipt (B t) (S t)) (hR : 1 ≤ retries)
    (hnz : ∀ u ∈ planned, u ≠ 0) (hbal : planned.sum ≤ balance) :
    (rawBatch numTxs count retries true ev).delaySleeps
        = List.range' 1 (numTxs * count - 1) ∧
    (tokenRun planned balance retries true ev).1.delaySleeps
        = List.range' 1 planned.length := by
  have hraw := rawGo_allOk retries (numTxs * count) ev (fun t => (B t, S t))
    (fun t => by rw [hev t]; rfl) hR (numTxs * count) 1 RawState.empty
  have htok := tokenGo_allOk retries true ev
    (fun t => (some (B t), some (S t))) (fun t => by rw [hev t]; rfl) hR
    planned 1 TokenState.empty hnz
  have hrb : rawBatch numTxs count retries true ev
      = rawGo retries (numTxs * count) true ev 1 (numTxs * count)
          RawState.empty := rfl
  constructor
  · rw [hrb, hraw]
    simp [RawState.empty]
    exact range'_filter_lt (numTxs * count)
  · rw [tokenRun, if_neg (by omega), htok]
    simp [TokenState.empty]

/-- C9 witness: a 2-by-2 raw batch and a 3-item token run, budget 1. -/
theorem delay_between_items_witness :
    (rawBatch 2 2 1 true (fun _ _ => NetEvent.receipt 7 1)).delaySleeps
        = List.range' 1 (2 * 2 - 1) ∧
    (tokenRun [1, 1, 1] 3 1 true (fun _ _ => NetEvent.receipt 7 1)).1.delaySleeps
        = List.range' 1 3 := by
  have h := delay_between_items 2 2 1 [1, 1, 1] 3
    (fun _ _ => NetEvent.receipt 7 1) (fun _ => 7) (fun _ => 1)
    (fun t => rfl) (by decide) (by decide) (by decide)
  simpa using h

end Linea
